import Mathlib

/-!
Shallow embedding of `model_selection.py` (emQTL-mining).

The repository's core is a model-selection framework:
`Experiment.score_eval` sweeps registered model families (each fitted through a
grid search), compares their best scores with strict `>` starting from
`-float('inf')`, and returns the winner; `Experiment.jaccard` scores candidate
biclusters against permuted ground truth; `PerformanceTracker` accumulates
per-class win counts and winner score histories; `MultiExperiment.execute_all`
drives `nruns` repeated passes feeding `PerformanceTracker.update_stats`.

Modelling conventions:
* Python float scores are modelled by `Score`: a rational value, `negInf`
  (the `-np.float('inf')` initial best), or `nan`; `Score.gt` mirrors Python's
  `>` on these values (`nan` compares false on both sides).
* A model family's grid-search outcome (`grid.fit` + `grid.best_score_`) is
  abstracted to `Except String Score`: either the best score over the family's
  hyperparameter grid, or the message of the exception the fit raised (the
  source wraps `grid.fit` in no `try`, so an exception propagates).
  `grid.best_params_` and the refitted winner-model object are abstracted away:
  a winner is identified by its family name (`model.__name__`).
* Python exceptions that the source itself can produce are `PyError`:
  `ValueError` from `compare_models`, a propagated fit error, the
  `UnboundLocalError`/`NameError` on `winner_name` when no comparison ever
  succeeds in `score_eval`, and the `TypeError` from unpacking the `None` that
  `time_eval` returns.
* Dictionaries keyed by test-class / model labels are modelled as total
  functions `String → String → _`; the key lists (`test_classes`, `models`,
  `data.keys()`) are passed explicitly and iterated in list order, matching
  Python dict insertion order.
-/

/-- Python float values relevant to `score_eval`'s comparisons: an actual
(rational-modelled) score, the `-np.float('inf')` sentinel, or `nan`. -/
inductive Score where
  | negInf : Score
  | nan : Score
  | val : ℚ → Score
deriving DecidableEq

/-- Python's `>` on the modelled floats: `a > b` is true for real values iff
`b < a`; any real value exceeds `-inf`; every comparison involving `nan` is
false, and `-inf > x` is false. -/
def Score.gt : Score → Score → Bool
  | Score.val a, Score.val b => decide (b < a)
  | Score.val _, Score.negInf => true
  | _, _ => false

/-- Exceptions the source can raise along the paths modelled here. -/
inductive PyError where
  | valueError : String → PyError
  | fitError : String → PyError
  | nameError : String → PyError
  | typeError : String → PyError
deriving DecidableEq

/-- The loop of `Experiment.score_eval` (model_selection.py:178-198): iterate
the registered `(model, param_grid)` pairs; a raised fit error propagates
immediately; otherwise compare `grid.best_score_` to the running best with
strict `>`, binding `winner_name` only inside that branch; after the loop
return `(winner_name, best_score)`, which is an `UnboundLocalError` on
`winner_name` when the branch was never taken. -/
def scoreEvalGo (w : Option String) (b : Score) :
    List (String × Except String Score) → Except PyError (String × Score)
  | [] =>
    match w with
    | some n => Except.ok (n, b)
    | none => Except.error (PyError.nameError "winner_name")
  | (n, r) :: rest =>
    match r with
    | Except.error e => Except.error (PyError.fitError e)
    | Except.ok s =>
      if Score.gt s b then scoreEvalGo (some n) s rest else scoreEvalGo w b rest

/-- `Experiment.score_eval`: the sweep starts from an unbound winner and a best
score of `-np.float('inf')`. -/
def scoreEval (fams : List (String × Except String Score)) :
    Except PyError (String × Score) :=
  scoreEvalGo none Score.negInf fams

/-- Families whose grid search succeeded with a plain rational score. -/
def okList (l : List (String × ℚ)) : List (String × Except String Score) :=
  l.map (fun p => (p.1, Except.ok (Score.val p.2)))

/-- Families whose grid search succeeded with an arbitrary float score
(possibly `nan`). -/
def okListS (l : List (String × Score)) : List (String × Except String Score) :=
  l.map (fun p => (p.1, Except.ok p.2))

/-- `Experiment.compare_models` (model_selection.py:156-168): dispatch on the
`target` string; `'score'` runs `score_eval`, `'time'` runs `time_eval` whose
body is `pass`, so it returns Python `None` (modelled `none`); any other target
raises `ValueError('Invalid target: `target`')`. -/
def compareModels (target : String) (fams : List (String × Except String Score)) :
    Except PyError (Option (String × Score)) :=
  if target = "score" then
    match scoreEval fams with
    | Except.ok r => Except.ok (some r)
    | Except.error e => Except.error e
  else if target = "time" then Except.ok none
  else Except.error (PyError.valueError ("Invalid target: `" ++ target ++ "`"))

/-- Numpy fancy indexing `mat[:, idx]`: reorder every row of the indicator
matrix by the shuffle permutation `idx`. -/
def reindex (mat : List (List Bool)) (idx : List Nat) : List (List Bool) :=
  mat.map (fun r => idx.map (fun i => r.getD i false))

/-- `Experiment.jaccard` (model_selection.py:200-218): read the estimator's
candidate biclusters `(rows, cols)`; if either side is empty return `0.0`;
otherwise score the candidate against the ground truth reindexed by the
shuffle permutation with the (external) consensus-score function. -/
def jaccard
    (consensus : List (List Bool) × List (List Bool) →
      List (List Bool) × List (List Bool) → ℚ)
    (rowsTrue colsTrue : List (List Bool)) (rowIdx colIdx : List Nat)
    (rows cols : List (List Bool)) : ℚ :=
  if rows.length = 0 ∨ cols.length = 0 then 0
  else consensus (rows, cols) (reindex rowsTrue rowIdx, reindex colsTrue colIdx)

/-- `PerformanceTracker` state (model_selection.py:34-97): the nested dicts
`model_scores` and `winning_stats` as total maps over (test class, model
family) labels; the configured `test_classes` / `models` key lists are passed
to the operations explicitly. -/
@[ext]
structure Tracker where
  model_scores : String → String → List Score
  winning_stats : String → String → Nat

/-- `PerformanceTracker.__init__`: every score history starts empty and every
win counter at 0 (`_setup_model_score_stats` / `_setup_model_win_stats`). -/
def initTracker : Tracker :=
  ⟨fun _ _ => [], fun _ _ => 0⟩

/-- The body of one iteration of `PerformanceTracker.update_stats`'s loop:
`winning_stats[test_class][name] += 1` and
`model_scores[test_class][name].append(score)`. -/
def updateClass (t : Tracker) (c n : String) (s : Score) : Tracker where
  model_scores := fun x y =>
    if x = c ∧ y = n then t.model_scores x y ++ [s] else t.model_scores x y
  winning_stats := fun x y =>
    if x = c ∧ y = n then t.winning_stats x y + 1 else t.winning_stats x y

/-- `PerformanceTracker.update_stats` loop (model_selection.py:80-83): for each
test class unpack `name, _, score = results[test_class]`; a `None` result (as
produced by the `'time'` target) fails the unpacking with a `TypeError`,
leaving the updates applied so far in place. -/
def updateGo (t : Tracker) (res : String → Option (String × Score)) :
    List String → Tracker × Except PyError Unit
  | [] => (t, Except.ok ())
  | c :: cs =>
    match res c with
    | none =>
      (t, Except.error (PyError.typeError "cannot unpack non-iterable NoneType object"))
    | some p => updateGo (updateClass t c p.1 p.2) res cs

/-- `PerformanceTracker.update_stats`: iterate the configured `test_classes`. -/
def updateStats (tcs : List String) (t : Tracker)
    (res : String → Option (String × Score)) : Tracker × Except PyError Unit :=
  updateGo t res tcs

/-- A per-class result map in which every class has a proper (winner, score)
triple — the shape `score_eval` produces. -/
def someRes (r : String → String × Score) : String → Option (String × Score) :=
  fun c => some (r c)

/-- A sequence of successful `update_stats` calls starting from a tracker. -/
def applyAll (tcs : List String) (t : Tracker)
    (rs : List (String → String × Score)) : Tracker :=
  rs.foldl (fun acc r => (updateStats tcs acc (someRes r)).1) t

/-- Python's `max(candidates.items(), key=operator.itemgetter(1))` over a
nonempty item list: keep the current item unless a later one is strictly
greater, so the first maximal item is returned. -/
def maxPair (x : String × Nat) (xs : List (String × Nat)) : String × Nat :=
  xs.foldl (fun best y => if y.2 > best.2 then y else best) x

/-- `PerformanceTracker.winner_models` (model_selection.py:87-97): for each
test class take the argmax of the win counters over the models in insertion
order; `none` for an unknown class or (the `ValueError` of `max` on) an empty
model list. -/
def winnerModels (tcs ms : List String) (t : Tracker) : String → Option String :=
  fun c =>
    if c ∈ tcs then
      match ms.map (fun m => (m, t.winning_stats c m)) with
      | [] => none
      | x :: xs => some (maxPair x xs).1
    else none

/-- The loop of `Experiment.execute` (model_selection.py:139-148): build
`self.results` by running `compare_models` for each key of the data mapping;
an exception propagates and aborts the loop. -/
def executeGo (famsOf : String → List (String × Except String Score))
    (target : String) (acc : String → Option (String × Score)) :
    List String → Except PyError (String → Option (String × Score))
  | [] => Except.ok acc
  | k :: ks =>
    match compareModels target (famsOf k) with
    | Except.error e => Except.error e
    | Except.ok v => executeGo famsOf target (fun c => if c = k then v else acc c) ks

/-- `Experiment.execute`: the results dict starts empty (a missing key and a
`None` value are both modelled as `none`). -/
def execute (keys : List String)
    (famsOf : String → List (String × Except String Score)) (target : String) :
    Except PyError (String → Option (String × Score)) :=
  executeGo famsOf target (fun _ => none) keys

/-- The inner loop of `MultiExperiment.execute_all` (model_selection.py:290-299)
for one run: for each dataset element run `Experiment.execute` (whose grid
outcomes depend on the one `random_state` threaded into the shuffle and every
model constructor) and feed `self.results` into the tracker. Exceptions
propagate with the tracker state reached so far. -/
def runDataset (keys tcs : List String) (target : String) (seed : Nat)
    (t : Tracker) :
    List (Nat → String → List (String × Except String Score)) →
      Tracker × Except PyError Unit
  | [] => (t, Except.ok ())
  | d :: ds =>
    match execute keys (d seed) target with
    | Except.error e => (t, Except.error e)
    | Except.ok res =>
      match updateStats tcs t res with
      | (t2, Except.ok _) => runDataset keys tcs target seed t2 ds
      | (t2, Except.error e) => (t2, Except.error e)

/-- The outer `for run_num in range(self.nruns)` loop of
`MultiExperiment.execute_all`: every run repeats the same pass with the same
`self.random_state`. -/
def executeAllGo (keys tcs : List String) (target : String) (seed : Nat)
    (dataset : List (Nat → String → List (String × Except String Score))) :
    Nat → Tracker → Tracker × Except PyError Unit
  | 0, t => (t, Except.ok ())
  | n + 1, t =>
    match runDataset keys tcs target seed t dataset with
    | (t2, Except.ok _) => executeAllGo keys tcs target seed dataset n t2
    | (t2, Except.error e) => (t2, Except.error e)

/-- `MultiExperiment.execute_all` (model_selection.py:281-301): create a fresh
`PerformanceTracker` and run `nruns` passes. -/
def executeAll (keys tcs : List String) (target : String) (seed : Nat)
    (dataset : List (Nat → String → List (String × Except String Score)))
    (nruns : Nat) : Tracker × Except PyError Unit :=
  executeAllGo keys tcs target seed dataset nruns initTracker

/-- `MultiExperiment.__init__` (model_selection.py:231): `random_state=1` by
default. -/
def defaultRandomState : Nat := 1

/-- Pointwise combination of tracker states: used to state that repeated runs
only replay the same per-run increments. -/
def Tracker.add (a b : Tracker) : Tracker where
  model_scores := fun x y => a.model_scores x y ++ b.model_scores x y
  winning_stats := fun x y => a.winning_stats x y + b.winning_stats x y

/-- `n` copies of the same per-run tracker increment. -/
def repTracker : Nat → Tracker → Tracker
  | 0, _ => initTracker
  | n + 1, t => t.add (repTracker n t)

/-! ## C4: degenerate biclusters score exactly 0 -/

/-- C4: for every estimator whose candidate bicluster row-set or column-set is
empty, `jaccard` returns exactly `0.0`, for any ground-truth partitions and any
consensus-score function, without raising (it is a total function and the
consensus scorer is never consulted). -/
theorem jaccard_empty_returns_zero
    (consensus : List (List Bool) × List (List Bool) →
      List (List Bool) × List (List Bool) → ℚ)
    (rowsTrue colsTrue : List (List Bool)) (rowIdx colIdx : List Nat)
    (rows cols : List (List Bool)) (h : rows = [] ∨ cols = []) :
    jaccard consensus rowsTrue colsTrue rowIdx colIdx rows cols = 0 := by
  have hlen : rows.length = 0 ∨ cols.length = 0 := by
    rcases h with h | h <;> [left; right] <;> simp [h]
  unfold jaccard
  rw [if_pos hlen]

/-- C4 witness: a concrete degenerate candidate (empty row-set, nonempty
column-set) scores 0 even against a consensus function that always answers 1. -/
theorem jaccard_empty_returns_zero_witness :
    jaccard (fun _ _ => 1) [[true]] [[true]] [0] [0] [] [[true]] = 0 :=
  jaccard_empty_returns_zero (fun _ _ => 1) [[true]] [[true]] [0] [0] [] [[true]]
    (Or.inl rfl)

/-! ## C1: a fit error is not caught by score_eval -/

/-- C1 counterexample: the claim predicts that when family `A`'s fit raises,
`A` is scored `-inf`, the sweep continues, and the triple for `B` is returned;
instead `score_eval` propagates the error — the result is the raised error, not
an `Except.ok` triple, so family `B` is never reached. -/
theorem score_eval_error_propagates_cex :
    scoreEval [("A", Except.error "boom"), ("B", Except.ok (Score.val 1))]
        = Except.error (PyError.fitError "boom")
      ∧ ∀ r, scoreEval [("A", Except.error "boom"), ("B", Except.ok (Score.val 1))]
        ≠ Except.ok r := by
  refine ⟨rfl, fun r h => ?_⟩
  rw [show scoreEval [("A", Except.error "boom"), ("B", Except.ok (Score.val 1))]
      = Except.error (PyError.fitError "boom") from rfl] at h
  exact Except.noConfusion h

theorem scoreEvalGo_error_of_first
    (n e : String) (rest : List (String × Except String Score)) :
    ∀ (pre : List (String × Except String Score)),
      (∀ x ∈ pre, ∃ s, x.2 = Except.ok s) → ∀ (w : Option String) (b : Score),
      scoreEvalGo w b (pre ++ (n, Except.error e) :: rest)
        = Except.error (PyError.fitError e) := by
  intro pre
  induction pre with
  | nil => intro _ w b; rfl
  | cons x xs ih =>
    intro hpre w b
    obtain ⟨s, hs⟩ := hpre x (List.mem_cons_self x xs)
    obtain ⟨m, r⟩ := x
    simp only at hs
    subst hs
    simp only [List.cons_append, scoreEvalGo]
    by_cases hgt : Score.gt s b
    · rw [if_pos hgt]
      exact ih (fun y hy => hpre y (List.mem_cons_of_mem _ hy)) (some m) s
    · rw [if_neg hgt]
      exact ih (fun y hy => hpre y (List.mem_cons_of_mem _ hy)) w b

/-- C1 amended: `score_eval` wraps `grid.fit` in no `try`, so the first
configuration whose fit raises makes the whole sweep abort with that error:
no negative-infinity substitution happens, the remaining families are not
evaluated, and no (winner, model, score) triple is returned. -/
theorem score_eval_first_fit_error_propagates
    (pre : List (String × Except String Score))
    (hpre : ∀ x ∈ pre, ∃ s, x.2 = Except.ok s) (n e : String)
    (rest : List (String × Except String Score)) :
    scoreEval (pre ++ (n, Except.error e) :: rest)
      = Except.error (PyError.fitError e) :=
  scoreEvalGo_error_of_first n e rest pre hpre none Score.negInf

/-- C1 amended witness: with one successfully fitted family before the failing
one, the sweep still aborts with the fit error. -/
theorem score_eval_first_fit_error_propagates_witness :
    scoreEval ([("A", Except.ok (Score.val 1))] ++ ("B", Except.error "boom") :: [])
      = Except.error (PyError.fitError "boom") :=
  score_eval_first_fit_error_propagates [("A", Except.ok (Score.val 1))]
    (fun x hx => by
      rw [List.mem_singleton] at hx
      exact ⟨Score.val 1, by rw [hx]⟩)
    "B" "boom" []

/-! ## C6: the time mode returns None instead of failing clearly -/

/-- C6 (code bug): selecting the `'time'` comparison mode does not fail with an
error identifying the mode as unimplemented — `time_eval`'s body is `pass`, so
`compare_models` returns Python `None` for the trial; the failure only surfaces
downstream, when `execute_all` unpacks the `None` result, as a generic
`TypeError` that does not mention the mode, with no tracker update recorded. -/
theorem time_mode_returns_none_eval :
    compareModels "time" [("M", Except.ok (Score.val 1))] = Except.ok none
      ∧ executeAll ["c"] ["c"] "time" 1 [fun _ _ => [("M", Except.ok (Score.val 1))]] 1
        = (initTracker,
            Except.error (PyError.typeError "cannot unpack non-iterable NoneType object")) :=
  ⟨rfl, rfl⟩

/-! ## C5: an invalid target fails fast and mutates nothing -/

/-- C5: for every target other than `'score'` and `'time'`, `compare_models`
raises `ValueError('Invalid target: `target`')` — a message naming the invalid
value — for any family list (so it never falls back to score evaluation), and
`execute_all` with that target stops at the very first comparison with that
error while the freshly created `PerformanceTracker` is still in its initial
state (no win counter or score history mutated). -/
theorem invalid_target_raises_no_mutation
    (target : String) (h1 : target ≠ "score") (h2 : target ≠ "time")
    (tcs : List String) (seed : Nat) (k : String) (ks : List String)
    (d : Nat → String → List (String × Except String Score))
    (ds : List (Nat → String → List (String × Except String Score))) (n : Nat) :
    (∀ fams, compareModels target fams
        = Except.error (PyError.valueError ("Invalid target: `" ++ target ++ "`")))
      ∧ executeAll (k :: ks) tcs target seed (d :: ds) (n + 1)
        = (initTracker,
            Except.error (PyError.valueError ("Invalid target: `" ++ target ++ "`"))) := by
  have hc : ∀ fams, compareModels target fams
      = Except.error (PyError.valueError ("Invalid target: `" ++ target ++ "`")) := by
    intro fams
    unfold compareModels
    rw [if_neg h1, if_neg h2]
  refine ⟨hc, ?_⟩
  show executeAllGo (k :: ks) tcs target seed (d :: ds) (n + 1) initTracker = _
  simp only [executeAllGo, runDataset, execute, executeGo, hc]

/-- C5 witness: the concrete invalid target `"bogus"` with one run, one test
class and one registered family. -/
theorem invalid_target_raises_no_mutation_witness :
    compareModels "bogus" [("M", Except.ok (Score.val 1))]
        = Except.error (PyError.valueError "Invalid target: `bogus`")
      ∧ executeAll ["c"] ["c"] "bogus" 1 [fun _ _ => [("M", Except.ok (Score.val 1))]] 1
        = (initTracker, Except.error (PyError.valueError "Invalid target: `bogus`")) := by
  have h := invalid_target_raises_no_mutation "bogus" (by decide) (by decide)
    ["c"] 1 "c" [] (fun _ _ => [("M", Except.ok (Score.val 1))]) [] 0
  exact ⟨h.1 [("M", Except.ok (Score.val 1))], h.2⟩

/-! ## C8: winner_models before any trial is a deterministic first-in-order pick -/

theorem maxPair_of_all_le (x : String × Nat) :
    ∀ xs : List (String × Nat), (∀ y ∈ xs, y.2 ≤ x.2) → maxPair x xs = x := by
  intro xs
  induction xs generalizing x with
  | nil => intro _; rfl
  | cons y ys ih =>
    intro h
    have hy : ¬ y.2 > x.2 := not_lt.mpr (h y (List.mem_cons_self y ys))
    simp only [maxPair, List.foldl_cons, if_neg hy]
    exact ih x (fun z hz => h z (List.mem_cons_of_mem _ hz))

/-- C8: `winner_models` queried on a fresh `PerformanceTracker` (all win
counters zero) returns, for every known test class, the model family first in
insertion order of the per-class mapping — i.e. the head of the registered
model-label list — deterministically and without raising. -/
theorem winner_models_initial_first_model (tcs : List String) (m : String)
    (rest : List String) (c : String) (hc : c ∈ tcs) :
    winnerModels tcs (m :: rest) initTracker c = some m := by
  unfold winnerModels
  rw [if_pos hc]
  simp only [List.map_cons]
  have : maxPair (m, initTracker.winning_stats c m)
      (rest.map fun f => (f, initTracker.winning_stats c f))
      = (m, initTracker.winning_stats c m) := by
    apply maxPair_of_all_le
    intro y hy
    obtain ⟨a, _, ha⟩ := List.mem_map.mp hy
    rw [← ha]
    exact le_refl 0
  rw [this]

/-- C8 witness: with registered families `["A", "B"]` and test class `"c"`,
the fresh tracker's winner for `"c"` is `"A"`. -/
theorem winner_models_initial_first_model_witness :
    winnerModels ["c"] ["A", "B"] initTracker "c" = some "A" :=
  winner_models_initial_first_model ["c"] "A" ["B"] "c" (List.mem_singleton.mpr rfl)

/-! ## C2 / C3: PerformanceTracker bookkeeping invariants -/

theorem updateClass_len_eq (t : Tracker) (c' n' : String) (s : Score)
    (c f : String) (h : (t.model_scores c f).length = t.winning_stats c f) :
    ((updateClass t c' n' s).model_scores c f).length
      = (updateClass t c' n' s).winning_stats c f := by
  unfold updateClass
  dsimp only
  by_cases hcond : c = c' ∧ f = n'
  · rw [if_pos hcond, if_pos hcond, List.length_append, h]
    rfl
  · rw [if_neg hcond, if_neg hcond]
    exact h

theorem updateGo_len_eq (res : String → Option (String × Score)) :
    ∀ (cs : List String) (t : Tracker),
      (∀ c f, (t.model_scores c f).length = t.winning_stats c f) →
      ∀ c f, ((updateGo t res cs).1.model_scores c f).length
        = (updateGo t res cs).1.winning_stats c f := by
  intro cs
  induction cs with
  | nil => intro t h c f; exact h c f
  | cons c' cs' ih =>
    intro t h c f
    simp only [updateGo]
    cases res c' with
    | none => exact h c f
    | some p =>
      exact ih (updateClass t c' p.1 p.2)
        (fun c f => updateClass_len_eq t c' p.1 p.2 c f (h c f)) c f

theorem updateGo_unchanged_of_not_mem (res : String → Option (String × Score))
    (c f : String) :
    ∀ (cs : List String), c ∉ cs → ∀ t : Tracker,
      (updateGo t res cs).1.winning_stats c f = t.winning_stats c f
        ∧ (updateGo t res cs).1.model_scores c f = t.model_scores c f := by
  intro cs
  induction cs with
  | nil => intro _ t; exact ⟨rfl, rfl⟩
  | cons c' cs' ih =>
    intro hc t
    have hne : c ≠ c' := fun h => hc (h ▸ List.mem_cons_self c' cs')
    have hc' : c ∉ cs' := fun h => hc (List.mem_cons_of_mem _ h)
    simp only [updateGo]
    cases res c' with
    | none => exact ⟨rfl, rfl⟩
    | some p =>
      obtain ⟨h1, h2⟩ := ih hc' (updateClass t c' p.1 p.2)
      constructor
      · rw [h1]
        unfold updateClass
        dsimp only
        rw [if_neg (fun hh => hne hh.1)]
      · rw [h2]
        unfold updateClass
        dsimp only
        rw [if_neg (fun hh => hne hh.1)]

theorem updateStats_winner_point (r : String → String × Score) (c : String) :
    ∀ (tcs : List String), tcs.Nodup → c ∈ tcs → ∀ t : Tracker,
      (updateStats tcs t (someRes r)).1.winning_stats c (r c).1
          = t.winning_stats c (r c).1 + 1
        ∧ (updateStats tcs t (someRes r)).1.model_scores c (r c).1
          = t.model_scores c (r c).1 ++ [(r c).2] := by
  intro tcs
  induction tcs with
  | nil => intro _ hc; exact absurd hc (List.not_mem_nil c)
  | cons a cs ih =>
    intro hnd hc t
    have hnd' := List.nodup_cons.mp hnd
    by_cases hca : c = a
    · subst hca
      simp only [updateStats, updateGo, someRes]
      have hfree := updateGo_unchanged_of_not_mem (someRes r) c (r c).1 cs hnd'.1
        (updateClass t c (r c).1 (r c).2)
      rw [show updateGo (updateClass t c (r c).1 (r c).2) (someRes r) cs
          = updateStats cs (updateClass t c (r c).1 (r c).2) (someRes r) from rfl] at hfree ⊢
      constructor
      · rw [hfree.1]
        unfold updateClass
        dsimp only
        rw [if_pos ⟨rfl, rfl⟩]
      · rw [hfree.2]
        unfold updateClass
        dsimp only
        rw [if_pos ⟨rfl, rfl⟩]
    · have hccs : c ∈ cs := by
        rcases List.mem_cons.mp hc with h | h
        · exact absurd h hca
        · exact h
      simp only [updateStats, updateGo, someRes]
      have := ih hnd'.2 hccs (updateClass t a (r a).1 (r a).2)
      simp only [updateStats, someRes] at this
      have hbase1 : (updateClass t a (r a).1 (r a).2).winning_stats c (r c).1
          = t.winning_stats c (r c).1 := by
        unfold updateClass
        dsimp only
        rw [if_neg (fun hh => hca hh.1)]
      have hbase2 : (updateClass t a (r a).1 (r a).2).model_scores c (r c).1
          = t.model_scores c (r c).1 := by
        unfold updateClass
        dsimp only
        rw [if_neg (fun hh => hca hh.1)]
      rw [hbase1, hbase2] at this
      exact this

theorem updateStats_other_model (r : String → String × Score) (c f : String)
    (hf : f ≠ (r c).1) :
    ∀ (tcs : List String) (t : Tracker),
      (updateStats tcs t (someRes r)).1.winning_stats c f = t.winning_stats c f := by
  intro tcs
  induction tcs with
  | nil => intro t; rfl
  | cons a cs ih =>
    intro t
    simp only [updateStats, updateGo, someRes]
    have hbase : (updateClass t a (r a).1 (r a).2).winning_stats c f
        = t.winning_stats c f := by
      unfold updateClass
      dsimp only
      by_cases hca : c = a
      · subst hca
        rw [if_neg (fun hh => hf hh.2)]
      · rw [if_neg (fun hh => hca hh.1)]
    have := ih (updateClass t a (r a).1 (r a).2)
    simp only [updateStats, someRes] at this
    rw [this, hbase]

theorem updateGo_scores_extend (res : String → Option (String × Score))
    (c f : String) :
    ∀ (cs : List String) (t : Tracker),
      ∃ u, (updateGo t res cs).1.model_scores c f = t.model_scores c f ++ u := by
  intro cs
  induction cs with
  | nil => intro t; exact ⟨[], (List.append_nil _).symm⟩
  | cons c' cs' ih =>
    intro t
    simp only [updateGo]
    cases res c' with
    | none => exact ⟨[], (List.append_nil _).symm⟩
    | some p =>
      obtain ⟨u, hu⟩ := ih (updateClass t c' p.1 p.2)
      rw [hu]
      unfold updateClass
      dsimp only
      by_cases hcond : c = c' ∧ f = p.1
      · rw [if_pos hcond]
        exact ⟨[p.2] ++ u, List.append_assoc _ _ _⟩
      · rw [if_neg hcond]
        exact ⟨u, rfl⟩

/-- C2: for every tracker reachable from the initial state by successful
`update_stats` calls and every (class, family) pair, the score-history length
equals the win count; each `update_stats` call increments the winner's counter
and appends the winner's score in the same step; and every update only extends
score histories — no earlier entry is modified or removed. -/
theorem tracker_history_length_eq_wins (tcs : List String)
    (rs : List (String → String × Score)) (c f : String) :
    (((applyAll tcs initTracker rs).model_scores c f).length
        = (applyAll tcs initTracker rs).winning_stats c f)
      ∧ (∀ (t : Tracker) (r : String → String × Score), tcs.Nodup → c ∈ tcs →
          (updateStats tcs t (someRes r)).1.winning_stats c (r c).1
              = t.winning_stats c (r c).1 + 1
            ∧ (updateStats tcs t (someRes r)).1.model_scores c (r c).1
              = t.model_scores c (r c).1 ++ [(r c).2])
      ∧ (∀ (t : Tracker) (res : String → Option (String × Score)),
          ∃ u, (updateStats tcs t res).1.model_scores c f
            = t.model_scores c f ++ u) := by
  refine ⟨?_, fun t r hnd hc => updateStats_winner_point r c tcs hnd hc t,
    fun t res => updateGo_scores_extend res c f tcs t⟩
  have main : ∀ (l : List (String → String × Score)) (t : Tracker),
      (∀ c' f', (t.model_scores c' f').length = t.winning_stats c' f') →
      ∀ c' f', ((applyAll tcs t l).model_scores c' f').length
        = (applyAll tcs t l).winning_stats c' f' := by
    intro l
    induction l with
    | nil => intro t h c' f'; exact h c' f'
    | cons r l' ih =>
      intro t h c' f'
      simp only [applyAll, List.foldl_cons]
      exact ih (updateStats tcs t (someRes r)).1
        (fun c'' f'' => updateGo_len_eq (someRes r) tcs t h c'' f'') c' f'
  exact main rs initTracker (fun _ _ => rfl) c f

/-- C2 witness: one successful update on the fresh tracker increments the
winner's counter and appends its score together. -/
theorem tracker_history_length_eq_wins_witness :
    (updateStats ["c1"] initTracker (someRes fun _ => ("A", Score.val 1))).1.winning_stats
          "c1" "A"
        = initTracker.winning_stats "c1" "A" + 1
      ∧ (updateStats ["c1"] initTracker (someRes fun _ => ("A", Score.val 1))).1.model_scores
          "c1" "A"
        = initTracker.model_scores "c1" "A" ++ [Score.val 1] :=
  (tracker_history_length_eq_wins ["c1"] [] "c1" "A").2.1 initTracker
    (fun _ => ("A", Score.val 1)) (List.nodup_singleton "c1")
    (List.mem_singleton.mpr rfl)

theorem mapCongrMem {α β : Type} (f g : α → β) :
    ∀ l : List α, (∀ a ∈ l, f a = g a) → l.map f = l.map g := by
  intro l
  induction l with
  | nil => intro _; rfl
  | cons a l' ih =>
    intro h
    simp only [List.map_cons]
    rw [h a (List.mem_cons_self a l'), ih (fun b hb => h b (List.mem_cons_of_mem _ hb))]

theorem sum_map_bump (w : String) (g g' : String → Nat) (hgw : g' w = g w + 1)
    (hgo : ∀ f, f ≠ w → g' f = g f) :
    ∀ ms : List String, ms.Nodup → w ∈ ms →
      (ms.map g').sum = (ms.map g).sum + 1 := by
  intro ms
  induction ms with
  | nil => intro _ hw; exact absurd hw (List.not_mem_nil w)
  | cons a ms' ih =>
    intro hnd hw
    have hnd' := List.nodup_cons.mp hnd
    simp only [List.map_cons, List.sum_cons]
    by_cases haw : a = w
    · subst haw
      have : ms'.map g' = ms'.map g :=
        mapCongrMem g' g ms' (fun b hb => hgo b (fun hbw => hnd'.1 (hbw ▸ hb)))
      rw [this, hgw]
      omega
    · have hw' : w ∈ ms' := by
        rcases List.mem_cons.mp hw with h | h
        · exact absurd h.symm haw
        · exact h
      rw [hgo a haw, ih hnd'.2 hw']
      omega

/-- C3: for every test class `c`, after any sequence of recorded trials the
sum over all registered model families of `winning_stats[c][f]` equals the
number of trials executed (each `update_stats` call attributes exactly one win
per class, to exactly one registered family). -/
theorem tracker_wins_sum_eq_trials (tcs ms : List String)
    (rs : List (String → String × Score)) (c : String) (hndc : tcs.Nodup)
    (hndm : ms.Nodup) (hc : c ∈ tcs) (hw : ∀ r ∈ rs, (r c).1 ∈ ms) :
    (ms.map fun f => (applyAll tcs initTracker rs).winning_stats c f).sum
      = rs.length := by
  have main : ∀ (l : List (String → String × Score)) (t : Tracker),
      (∀ r ∈ l, (r c).1 ∈ ms) →
      (ms.map fun f => (applyAll tcs t l).winning_stats c f).sum
        = (ms.map fun f => t.winning_stats c f).sum + l.length := by
    intro l
    induction l with
    | nil => intro t _; simp [applyAll]
    | cons r l' ih =>
      intro t hwl
      simp only [applyAll, List.foldl_cons]
      have step : (ms.map fun f =>
          (updateStats tcs t (someRes r)).1.winning_stats c f).sum
          = (ms.map fun f => t.winning_stats c f).sum + 1 :=
        sum_map_bump (r c).1 (fun f => t.winning_stats c f)
          (fun f => (updateStats tcs t (someRes r)).1.winning_stats c f)
          ((updateStats_winner_point r c tcs hndc hc t).1)
          (fun f hf => updateStats_other_model r c f hf tcs t)
          ms hndm (hwl r (List.mem_cons_self r l'))
      have := ih (updateStats tcs t (someRes r)).1
        (fun r' hr' => hwl r' (List.mem_cons_of_mem _ hr'))
      rw [show applyAll tcs ((updateStats tcs t (someRes r)).1) l'
          = List.foldl (fun acc r => (updateStats tcs acc (someRes r)).1)
            (updateStats tcs t (someRes r)).1 l' from rfl] at this
      rw [this, step, List.length_cons]
      omega
  have := main rs initTracker hw
  rw [this]
  simp [initTracker]

/-- C3 witness: one trial with winner `"A"` among families `["A", "B"]` gives
total wins 1 for class `"c"`. -/
theorem tracker_wins_sum_eq_trials_witness :
    (["A", "B"].map fun f =>
        (applyAll ["c"] initTracker [fun _ => ("A", Score.val 1)]).winning_stats "c" f).sum
      = 1 :=
  tracker_wins_sum_eq_trials ["c"] ["A", "B"] [fun _ => ("A", Score.val 1)] "c"
    (List.nodup_singleton "c") (by simp) (List.mem_singleton.mpr rfl)
    (fun r hr => by
      rw [List.mem_singleton] at hr
      subst hr
      simp)

/-! ## C9: the winner name is bound only by a successful strict comparison -/

theorem scoreEvalGo_some_ok :
    ∀ (l : List (String × Score)) (n : String) (b : Score),
      ∃ r, scoreEvalGo (some n) b (okListS l) = Except.ok r := by
  intro l
  induction l with
  | nil => intro n b; exact ⟨(n, b), rfl⟩
  | cons x xs ih =>
    intro n b
    simp only [okListS, List.map_cons, scoreEvalGo]
    by_cases h : Score.gt x.2 b
    · rw [if_pos h]
      exact ih x.1 x.2
    · rw [if_neg h]
      exact ih n b

theorem scoreEvalGo_unbound_of_no_val :
    ∀ l : List (String × Score), (∀ x ∈ l, ∀ q, x.2 ≠ Score.val q) →
      scoreEvalGo none Score.negInf (okListS l)
        = Except.error (PyError.nameError "winner_name") := by
  intro l
  induction l with
  | nil => intro _; rfl
  | cons x xs ih =>
    intro h
    simp only [okListS, List.map_cons, scoreEvalGo]
    have hgt : Score.gt x.2 Score.negInf = false := by
      cases hcase : x.2 with
      | val q => exact absurd hcase (h x (List.mem_cons_self x xs) q)
      | nan => rfl
      | negInf => rfl
    rw [hgt]
    simp only [Bool.false_eq_true, if_false]
    exact ih (fun y hy => h y (List.mem_cons_of_mem _ hy))

theorem scoreEvalGo_ok_of_val :
    ∀ l : List (String × Score), (∃ x ∈ l, ∃ q, x.2 = Score.val q) →
      ∃ r, scoreEvalGo none Score.negInf (okListS l) = Except.ok r := by
  intro l
  induction l with
  | nil => intro h; obtain ⟨x, hx, _⟩ := h; exact absurd hx (List.not_mem_nil x)
  | cons x xs ih =>
    intro h
    simp only [okListS, List.map_cons, scoreEvalGo]
    cases hcase : x.2 with
    | val q =>
      rw [if_pos (show Score.gt (Score.val q) Score.negInf = true from rfl)]
      exact scoreEvalGo_some_ok xs x.1 (Score.val q)
    | nan =>
      rw [if_neg (show ¬ Score.gt Score.nan Score.negInf = true by decide)]
      obtain ⟨y, hy, q, hq⟩ := h
      rcases List.mem_cons.mp hy with hyx | hyxs
      · rw [hyx, hcase] at hq
        exact absurd hq (fun hh => Score.noConfusion hh)
      · exact ih ⟨y, hyxs, q, hq⟩
    | negInf =>
      rw [if_neg (show ¬ Score.gt Score.negInf Score.negInf = true by decide)]
      obtain ⟨y, hy, q, hq⟩ := h
      rcases List.mem_cons.mp hy with hyx | hyxs
      · rw [hyx, hcase] at hq
        exact absurd hq (fun hh => Score.noConfusion hh)
      · exact ih ⟨y, hyxs, q, hq⟩

/-- C9: over successfully fitted families, `score_eval` returns a winner triple
iff at least one family's best grid score is a real value (one strict
comparison against the running best, initially `-inf`, succeeds); when no
family has a real score — e.g. every best score is `nan`, or the family list is
empty — `winner_name` is never bound and the function fails with the
unbound-local-name error instead of returning a value. -/
theorem score_eval_requires_real_score (l : List (String × Score)) :
    ((∃ r, scoreEval (okListS l) = Except.ok r) ↔ ∃ x ∈ l, ∃ q, x.2 = Score.val q)
      ∧ ((∀ x ∈ l, ∀ q, x.2 ≠ Score.val q) →
          scoreEval (okListS l) = Except.error (PyError.nameError "winner_name")) := by
  constructor
  · constructor
    · intro hok
      by_contra hno
      push_neg at hno
      obtain ⟨r, hr⟩ := hok
      rw [show scoreEval (okListS l) = scoreEvalGo none Score.negInf (okListS l)
          from rfl, scoreEvalGo_unbound_of_no_val l hno] at hr
      exact Except.noConfusion hr
    · exact scoreEvalGo_ok_of_val l
  · exact scoreEvalGo_unbound_of_no_val l

/-- C9 witness: a single family whose grid best score is real does get
returned (the winner name is bound), applying the equivalence at a concrete
family list. -/
theorem score_eval_requires_real_score_witness :
    ∃ r, scoreEval (okListS [("A", Score.val 1)]) = Except.ok r :=
  (score_eval_requires_real_score [("A", Score.val 1)]).1.mpr
    ⟨("A", Score.val 1), List.mem_singleton.mpr rfl, 1, rfl⟩

/-! ## C7: ties are broken towards the earlier registered family -/

theorem scoreEvalGo_stay (n : String) (c : ℚ) :
    ∀ l : List (String × ℚ), (∀ x ∈ l, x.2 ≤ c) →
      scoreEvalGo (some n) (Score.val c) (okList l) = Except.ok (n, Score.val c) := by
  intro l
  induction l with
  | nil => intro _; rfl
  | cons x xs ih =>
    intro h
    simp only [okList, List.map_cons, scoreEvalGo]
    have hgt : ¬ Score.gt (Score.val x.2) (Score.val c) = true := by
      simp only [Score.gt, decide_eq_true_eq]
      exact not_lt.mpr (h x (List.mem_cons_self x xs))
    rw [if_neg hgt]
    exact ih (fun y hy => h y (List.mem_cons_of_mem _ hy))

theorem scoreEvalGo_first_max :
    ∀ (l : List (String × ℚ)) (i : Nat) (hi : i < l.length) (w : Option String)
      (b : Score),
      Score.gt (Score.val (l.get ⟨i, hi⟩).2) b = true →
      (∀ m : Fin l.length, m.1 < i → (l.get m).2 < (l.get ⟨i, hi⟩).2) →
      (∀ m : Fin l.length, (l.get m).2 ≤ (l.get ⟨i, hi⟩).2) →
      scoreEvalGo w b (okList l)
        = Except.ok ((l.get ⟨i, hi⟩).1, Score.val (l.get ⟨i, hi⟩).2) := by
  intro l
  induction l with
  | nil => intro i hi; exact absurd hi (Nat.not_lt_zero i)
  | cons x xs ih =>
    intro i hi w b hgt hfirst hmax
    simp only [okList, List.map_cons, scoreEvalGo]
    cases i with
    | zero =>
      have hgt0 : Score.gt (Score.val x.2) b = true := hgt
      rw [if_pos hgt0]
      have hle : ∀ y ∈ xs, y.2 ≤ x.2 := by
        intro y hy
        obtain ⟨k, hk⟩ := List.mem_iff_get.mp hy
        have h0 := hmax ⟨k.1 + 1, Nat.succ_lt_succ k.2⟩
        rw [show (x :: xs).get ⟨k.1 + 1, Nat.succ_lt_succ k.2⟩ = xs.get k from rfl,
          hk] at h0
        exact h0
      exact scoreEvalGo_stay x.1 x.2 xs hle
    | succ i' =>
      have hi' : i' < xs.length := Nat.lt_of_succ_lt_succ hi
      have hx_lt : x.2 < (xs.get ⟨i', hi'⟩).2 :=
        hfirst ⟨0, Nat.succ_pos xs.length⟩ (Nat.succ_pos i')
      have hfirst' : ∀ m : Fin xs.length, m.1 < i' →
          (xs.get m).2 < (xs.get ⟨i', hi'⟩).2 := by
        intro m hm
        exact hfirst ⟨m.1 + 1, Nat.succ_lt_succ m.2⟩ (Nat.succ_lt_succ hm)
      have hmax' : ∀ m : Fin xs.length, (xs.get m).2 ≤ (xs.get ⟨i', hi'⟩).2 := by
        intro m
        exact hmax ⟨m.1 + 1, Nat.succ_lt_succ m.2⟩
      by_cases hb : Score.gt (Score.val x.2) b = true
      · rw [if_pos hb]
        apply ih i' hi' (some x.1) (Score.val x.2) _ hfirst' hmax'
        simp only [Score.gt, decide_eq_true_eq]
        exact hx_lt
      · rw [if_neg hb]
        exact ih i' hi' w b hgt hfirst' hmax'

/-- C7: `score_eval` picks its winner by strict `>` in registration-list
order: whenever index `i` attains the maximal best score and every family
before `i` scores strictly less (in particular when a later family `j` ties
`i` exactly), the family at `i` — the earlier of the tied pair — is returned
as the winner. -/
theorem score_eval_tie_first_wins (l : List (String × ℚ)) (i j : Fin l.length)
    (_hij : i.1 < j.1) (_heq : (l.get i).2 = (l.get j).2)
    (hmax : ∀ m : Fin l.length, (l.get m).2 ≤ (l.get i).2)
    (hfirst : ∀ m : Fin l.length, m.1 < i.1 → (l.get m).2 < (l.get i).2) :
    scoreEval (okList l) = Except.ok ((l.get i).1, Score.val (l.get i).2) :=
  scoreEvalGo_first_max l i.1 i.2 none Score.negInf rfl hfirst hmax

/-- C7 witness: families `A, B, C` with best scores `0, 1, 1` — `B` and `C`
tie exactly at the maximum and the earlier family `B` wins. -/
theorem score_eval_tie_first_wins_witness :
    scoreEval (okList [("A", (0 : ℚ)), ("B", 1), ("C", 1)])
      = Except.ok ("B", Score.val 1) :=
  score_eval_tie_first_wins [("A", (0 : ℚ)), ("B", 1), ("C", 1)]
    ⟨1, by decide⟩ ⟨2, by decide⟩ (by decide) (by decide) (by decide) (by decide)

/-! ## C10: one fixed random_state makes all nruns passes identical -/

theorem tracker_add_init_right (t : Tracker) : t.add initTracker = t := by
  ext x y <;> simp [Tracker.add, initTracker]

theorem tracker_add_init_left (t : Tracker) : initTracker.add t = t := by
  ext x y <;> simp [Tracker.add, initTracker]

theorem tracker_add_assoc (a b c : Tracker) :
    (a.add b).add c = a.add (b.add c) := by
  ext x y <;> simp [Tracker.add, List.append_assoc, Nat.add_assoc]

theorem updateClass_add (a b : Tracker) (c n : String) (s : Score) :
    updateClass (a.add b) c n s = a.add (updateClass b c n s) := by
  ext x y <;> unfold updateClass Tracker.add <;> dsimp only <;>
    by_cases hcond : x = c ∧ y = n
  · rw [if_pos hcond, if_pos hcond, List.append_assoc]
  · rw [if_neg hcond, if_neg hcond]
  · rw [if_pos hcond, if_pos hcond, Nat.add_assoc]
  · rw [if_neg hcond, if_neg hcond]

theorem updateGo_add (res : String → Option (String × Score)) :
    ∀ (cs : List String) (a b : Tracker),
      updateGo (a.add b) res cs
        = (a.add (updateGo b res cs).1, (updateGo b res cs).2) := by
  intro cs
  induction cs with
  | nil => intro a b; rfl
  | cons c' cs' ih =>
    intro a b
    cases hres : res c' with
    | none => simp only [updateGo, hres]
    | some p =>
      simp only [updateGo, hres]
      rw [updateClass_add]
      exact ih a (updateClass b c' p.1 p.2)

theorem runDataset_add (keys tcs : List String) (target : String) (seed : Nat) :
    ∀ (ds : List (Nat → String → List (String × Except String Score)))
      (a b : Tracker),
      runDataset keys tcs target seed (a.add b) ds
        = (a.add (runDataset keys tcs target seed b ds).1,
            (runDataset keys tcs target seed b ds).2) := by
  intro ds
  induction ds with
  | nil => intro a b; rfl
  | cons d ds' ih =>
    intro a b
    cases hex : execute keys (d seed) target with
    | error e => simp only [runDataset, hex]
    | ok res =>
      simp only [runDataset, hex]
      rw [show updateStats tcs (a.add b) res = updateGo (a.add b) res tcs from rfl,
        updateGo_add res tcs a b]
      rcases hupd : updateGo b res tcs with ⟨t2, e2⟩
      cases e2 with
      | ok u =>
        simp only [updateStats, hupd]
        exact ih a t2
      | error e => simp only [updateStats, hupd]

theorem executeAllGo_replays (keys tcs : List String) (target : String)
    (seed : Nat) (dataset : List (Nat → String → List (String × Except String Score)))
    (t1 : Tracker)
    (h : runDataset keys tcs target seed initTracker dataset = (t1, Except.ok ())) :
    ∀ (n : Nat) (t : Tracker),
      executeAllGo keys tcs target seed dataset n t
        = (t.add (repTracker n t1), Except.ok ()) := by
  intro n
  induction n with
  | zero => intro t; rw [show repTracker 0 t1 = initTracker from rfl,
      tracker_add_init_right]; rfl
  | succ n' ih =>
    intro t
    have hrun : runDataset keys tcs target seed t dataset = (t.add t1, Except.ok ()) := by
      rw [← tracker_add_init_right t, runDataset_add, h]
      rw [tracker_add_init_right]
    simp only [executeAllGo, hrun]
    rw [ih (t.add t1), tracker_add_assoc]
    rfl

theorem repTracker_stats (t1 : Tracker) (c f : String) :
    ∀ n : Nat, (repTracker n t1).winning_stats c f = n * t1.winning_stats c f
      ∧ (repTracker n t1).model_scores c f
        = (List.replicate n (t1.model_scores c f)).flatten := by
  intro n
  induction n with
  | zero => exact ⟨by simp [repTracker, initTracker], by simp [repTracker, initTracker]⟩
  | succ n' ih =>
    constructor
    · show t1.winning_stats c f + (repTracker n' t1).winning_stats c f = _
      rw [ih.1, Nat.succ_mul, Nat.add_comm (n' * t1.winning_stats c f)]
    · show t1.model_scores c f ++ (repTracker n' t1).model_scores c f = _
      rw [ih.2, List.replicate_succ, List.flatten_cons]

/-- C10: `execute_all` threads its one `random_state` value unchanged into every
run (and into each class's shuffle and model fits, which are functions of that
seed): whenever a single pass over the dataset succeeds and yields the tracker
increment `t1`, all `nruns` repeated runs replay exactly that increment — the
final tracker is `nruns` copies of `t1` (win counters scaled by `nruns`, score
histories the `nruns`-fold repetition of the single-run history), not
independent trials. -/
theorem execute_all_runs_identical (keys tcs : List String) (target : String)
    (seed : Nat) (dataset : List (Nat → String → List (String × Except String Score)))
    (t1 : Tracker)
    (h : runDataset keys tcs target seed initTracker dataset = (t1, Except.ok ()))
    (nruns : Nat) :
    executeAll keys tcs target seed dataset nruns
        = (repTracker nruns t1, Except.ok ())
      ∧ ∀ c f, (repTracker nruns t1).winning_stats c f = nruns * t1.winning_stats c f
        ∧ (repTracker nruns t1).model_scores c f
          = (List.replicate nruns (t1.model_scores c f)).flatten := by
  constructor
  · rw [show executeAll keys tcs target seed dataset nruns
        = executeAllGo keys tcs target seed dataset nruns initTracker from rfl,
      executeAllGo_replays keys tcs target seed dataset t1 h nruns,
      tracker_add_init_left]
  · intro c f
    exact repTracker_stats t1 c f nruns

/-- C10 witness: with the default `random_state` of 1, one class, one family
and a deterministic fit, three runs yield exactly three copies of the one-run
tracker increment. -/
theorem execute_all_runs_identical_witness :
    executeAll ["c"] ["c"] "score" defaultRandomState
        [fun _ _ => [("M", Except.ok (Score.val 1))]] 3
      = (repTracker 3 (updateClass initTracker "c" "M" (Score.val 1)), Except.ok ()) :=
  (execute_all_runs_identical ["c"] ["c"] "score" defaultRandomState
    [fun _ _ => [("M", Except.ok (Score.val 1))]]
    (updateClass initTracker "c" "M" (Score.val 1)) rfl 3).1
